import Mathlib

/-!
Verification of the Flight SQL test server (`test/integration/flight_server.py`).

Byte buffers are modelled as `List Nat` (one entry per byte), query texts and
tickets as `String`/`List Char`.  Arrow tables are modelled as a schema
(column name × type, where the type records the column encoding) together
with row-major cell values.  The embedded DuckDB engine and the pyarrow IPC
serializer are external collaborators (spec §6) and enter the model as
parameters, except where a claim needs the concrete behaviour of the fixed
test registry.
-/

/-! ## Varint reader (`_read_varint`) -/

/-- One step of `_read_varint`, recursing over the bytes that remain after the
start index.  Returns the accumulated value and the number of bytes consumed.
`shift` and `acc` carry the loop state `shift`/`value` of the Python loop. -/
def readVarintAux : List Nat → Nat → Nat → Nat × Nat
  | [], _, acc => (acc, 0)
  | b :: rest, shift, acc =>
    let acc' := acc ||| ((b &&& 0x7F) <<< shift)
    if b &&& 0x80 = 0 then (acc', 1)
    else
      let r := readVarintAux rest (shift + 7) acc'
      (r.1, r.2 + 1)

/-- `_read_varint(data, idx)`: read a varint starting at `idx`, returning
`(value, new_idx)`. -/
def readVarint (data : List Nat) (idx : Nat) : Nat × Nat :=
  let r := readVarintAux (data.drop idx) 0 0
  (r.1, idx + r.2)

/-- The byte group a varint read consumes: the longest run of bytes with the
continuation bit set, plus the terminating byte when one exists. -/
def varintChunk (l : List Nat) : List Nat :=
  let c := l.takeWhile (fun b => b &&& 0x80 != 0)
  c ++ (l.drop c.length).take 1

/-- Little-endian base-128 value of a byte group (7 payload bits per byte). -/
def varintVal (l : List Nat) : Nat :=
  l.foldr (fun b acc => acc * 128 + (b &&& 0x7F)) 0

theorem varintChunk_length_le (l : List Nat) : (varintChunk l).length ≤ l.length := by
  unfold varintChunk
  induction l with
  | nil => simp
  | cons b rest ih =>
    by_cases h : b &&& 0x80 != 0
    · simpa [List.takeWhile_cons, h] using Nat.succ_le_succ ih
    · simp [List.takeWhile_cons, h]

theorem or_shift_eq_add {acc x shift : Nat} (hacc : acc < 2 ^ shift) :
    acc ||| (x <<< shift) = acc + x * 2 ^ shift := by
  have h := Nat.mul_add_lt_is_or hacc x
  rw [Nat.shiftLeft_eq, Nat.or_comm, mul_comm x (2 ^ shift), ← h]
  omega

theorem and_7F_eq_mod (b : Nat) : b &&& 0x7F = b % 128 := by
  have h := Nat.and_pow_two_sub_one_eq_mod b 7
  norm_num at h
  simpa using h

theorem readVarintAux_spec (l : List Nat) :
    ∀ shift acc, acc < 2 ^ shift →
      readVarintAux l shift acc =
        (acc + varintVal (varintChunk l) * 2 ^ shift, (varintChunk l).length) := by
  induction l with
  | nil => intro shift acc _; simp [readVarintAux, varintChunk, varintVal]
  | cons b rest ih =>
    intro shift acc hacc
    have hor : acc ||| ((b &&& 0x7F) <<< shift) = acc + (b &&& 0x7F) * 2 ^ shift :=
      or_shift_eq_add hacc
    by_cases hstop : b &&& 0x80 = 0
    · have hchunk : varintChunk (b :: rest) = [b] := by
        simp [varintChunk, List.takeWhile_cons, hstop]
      simp only [readVarintAux, hstop, if_pos rfl, hchunk]
      simp [varintVal, hor]
    · have hchunk : varintChunk (b :: rest) = b :: varintChunk rest := by
        simp [varintChunk, List.takeWhile_cons, hstop]
      have hacc' : acc + (b &&& 0x7F) * 2 ^ shift < 2 ^ (shift + 7) := by
        have hp : (2 : Nat) ^ (shift + 7) = 128 * 2 ^ shift := by rw [pow_add]; ring
        have hlt : b &&& 0x7F < 128 := by rw [and_7F_eq_mod]; omega
        have hmul : (b &&& 0x7F) * 2 ^ shift ≤ 127 * 2 ^ shift :=
          Nat.mul_le_mul_right _ (by omega)
        have hpos : 0 < 2 ^ shift := Nat.pos_pow_of_pos _ (by norm_num)
        omega
      simp only [readVarintAux]
      rw [if_neg hstop]
      rw [ih (shift + 7) _ (by rw [hor]; exact hacc')]
      simp only [hchunk, Prod.mk.injEq, List.length_cons]
      refine ⟨?_, trivial⟩
      simp only [varintVal, List.foldr_cons]
      rw [hor]
      have : varintVal (varintChunk rest) = (varintChunk rest).foldr
          (fun b acc => acc * 128 + (b &&& 0x7F)) 0 := rfl
      rw [← this, pow_add]
      ring

/-- Characterisation of `_read_varint`: the value is the little-endian
base-128 accumulation of the consumed group, and the new index advances by
exactly the group length. -/
theorem readVarint_eq (data : List Nat) (idx : Nat) :
    readVarint data idx =
      (varintVal (varintChunk (data.drop idx)),
        idx + (varintChunk (data.drop idx)).length) := by
  unfold readVarint
  rw [readVarintAux_spec _ 0 0 (by norm_num)]
  simp

/-! ## Varint encoding (used to build well-formed protobuf test inputs) -/

/-- Standard varint encoding, fuel-structured so that it evaluates by `decide`. -/
def encodeVarintF : Nat → Nat → List Nat
  | 0, n => [n % 128]
  | fuel + 1, n => if n < 128 then [n] else (n % 128 + 128) :: encodeVarintF fuel (n / 128)

def encodeVarint (n : Nat) : List Nat := encodeVarintF (n + 1) n

theorem encodeVarintF_roundtrip :
    ∀ fuel n, n ≤ fuel → ∀ (rest : List Nat) (shift acc : Nat), acc < 2 ^ shift →
      readVarintAux (encodeVarintF fuel n ++ rest) shift acc =
        (acc + n * 2 ^ shift, (encodeVarintF fuel n).length) := by
  intro fuel
  induction fuel with
  | zero =>
    intro n hn rest shift acc hacc
    interval_cases n
    have h0 : (0 : Nat) &&& 0x80 = 0 := by decide
    simp [encodeVarintF, readVarintAux, h0, Nat.shiftLeft_eq, hacc]
  | succ fuel ih =>
    intro n hn rest shift acc hacc
    by_cases h : n < 128
    · have hstop : n &&& 0x80 = 0 := by
        have hbit : n.testBit 7 = false := Nat.testBit_eq_false_of_lt (by omega)
        have h2 := Nat.and_two_pow n 7
        norm_num [hbit] at h2
        simpa using h2
      have hval : n &&& 0x7F = n := by
        rw [and_7F_eq_mod]; omega
      have hor : acc ||| (n <<< shift) = acc + n * 2 ^ shift := by
        have := or_shift_eq_add (x := n) hacc
        simpa using this
      simp [encodeVarintF, h, readVarintAux, hstop, hval, hor]
    · have hb2 : n % 128 + 128 &&& 0x80 = 128 := by
        have hbit : (n % 128 + 128).testBit 7 = true := by
          rw [Nat.testBit_to_div_mod]
          have hlt : n % 128 < 128 := Nat.mod_lt _ (by norm_num)
          have hdiv1 : (n % 128 + 128) / 2 ^ 7 = 1 := by
            simp only [show (2 : Nat) ^ 7 = 128 by norm_num]
            omega
          simp [hdiv1]
        have h2 := Nat.and_two_pow (n % 128 + 128) 7
        norm_num [hbit] at h2
        simpa using h2
      have hb : ¬(n % 128 + 128 &&& 0x80 = 0) := by omega
      have hval : n % 128 + 128 &&& 0x7F = n % 128 := by
        rw [and_7F_eq_mod]; omega
      have hor : acc ||| ((n % 128) <<< shift) = acc + (n % 128) * 2 ^ shift :=
        or_shift_eq_add hacc
      have hacc' : acc + (n % 128) * 2 ^ shift < 2 ^ (shift + 7) := by
        have hp : (2 : Nat) ^ (shift + 7) = 128 * 2 ^ shift := by rw [pow_add]; ring
        have hlt : n % 128 < 128 := Nat.mod_lt _ (by norm_num)
        have hmul : (n % 128) * 2 ^ shift ≤ 127 * 2 ^ shift :=
          Nat.mul_le_mul_right _ (by omega)
        have hpos : 0 < 2 ^ shift := Nat.pos_pow_of_pos _ (by norm_num)
        omega
      have hdiv : n / 128 ≤ fuel := by omega
      simp only [encodeVarintF, if_neg h, List.cons_append, readVarintAux]
      simp only [hval, hor]
      rw [if_neg hb]
      rw [ih (n / 128) hdiv rest (shift + 7) _ hacc']
      simp only [Prod.mk.injEq, List.length_cons]
      refine ⟨?_, trivial⟩
      have hn128 : 128 * (n / 128) + n % 128 = n := Nat.div_add_mod n 128
      calc acc + n % 128 * 2 ^ shift + n / 128 * 2 ^ (shift + 7)
          = acc + (128 * (n / 128) + n % 128) * 2 ^ shift := by rw [pow_add]; ring
        _ = acc + n * 2 ^ shift := by rw [hn128]

/-- Round-trip: reading a varint-encoded number from the head of a buffer
recovers the number and consumes exactly the encoding. -/
theorem readVarintAux_encode (n : Nat) (rest : List Nat) :
    readVarintAux (encodeVarint n ++ rest) 0 0 = (n, (encodeVarint n).length) := by
  have := encodeVarintF_roundtrip (n + 1) n (by omega) rest 0 0 (by norm_num)
  simpa [encodeVarint] using this

/-! ## C8: varint termination and bounds -/

theorem readVarint_bound (data : List Nat) (idx : Nat) (h : idx ≤ data.length) :
    (readVarint data idx).2 ≤ data.length := by
  rw [readVarint_eq]
  have h1 := varintChunk_length_le (data.drop idx)
  simp only [List.length_drop] at h1
  omega

/-- C8 (amended): for every buffer and start index the varint reader returns
`(value, new_index)` where the value is the little-endian base-128
accumulation over the consumed group (stopping at the first byte with a clear
continuation bit, or at the end of the buffer for an unterminated varint) and
`new_index` advances by the group length; `new_index` stays within the buffer
provided the start index does. -/
theorem readVarint_spec (data : List Nat) (idx : Nat) :
    readVarint data idx =
      (varintVal (varintChunk (data.drop idx)),
        idx + (varintChunk (data.drop idx)).length) ∧
    (idx ≤ data.length → (readVarint data idx).2 ≤ data.length) :=
  ⟨readVarint_eq data idx, readVarint_bound data idx⟩

/-- C8 (counterexample): with a start index beyond the buffer, the returned
index exceeds the buffer length, so "new_index at most the buffer length"
fails for that start index. -/
theorem readVarint_counterexample :
    ¬ ((readVarint ([] : List Nat) 5).2 ≤ ([] : List Nat).length) := by decide

theorem readVarint_spec_witness :
    (0 ≤ ([150, 1] : List Nat).length) ∧ (readVarint [150, 1] 0).2 ≤ ([150, 1] : List Nat).length :=
  ⟨by decide, (readVarint_spec [150, 1] 0).2 (by decide)⟩

/-! ## UTF-8 decoding (model of Python `bytes.decode("utf-8")`) -/

def utf8Cont (b : Nat) : Bool := 0x80 ≤ b && b < 0xC0

/-- Fuel-structured UTF-8 decoder; `none` models a `UnicodeDecodeError`.
Rejects stray continuation bytes, truncated sequences, overlong encodings,
surrogates, and code points beyond U+10FFFF, as CPython's strict decoder does. -/
def utf8DecodeF : Nat → List Nat → Option (List Char)
  | 0, [] => some []
  | 0, _ :: _ => none
  | _ + 1, [] => some []
  | fuel + 1, b :: rest =>
    if b < 0x80 then
      match utf8DecodeF fuel rest with
      | some cs => some (Char.ofNat b :: cs)
      | none => none
    else if b < 0xC0 then none
    else if b < 0xE0 then
      match rest with
      | b2 :: rest2 =>
        if utf8Cont b2 then
          let cp := (b - 0xC0) * 0x40 + (b2 - 0x80)
          if cp < 0x80 then none
          else
            match utf8DecodeF fuel rest2 with
            | some cs => some (Char.ofNat cp :: cs)
            | none => none
        else none
      | _ => none
    else if b < 0xF0 then
      match rest with
      | b2 :: b3 :: rest3 =>
        if utf8Cont b2 && utf8Cont b3 then
          let cp := (b - 0xE0) * 0x1000 + (b2 - 0x80) * 0x40 + (b3 - 0x80)
          if cp < 0x800 then none
          else if 0xD800 ≤ cp && cp < 0xE000 then none
          else
            match utf8DecodeF fuel rest3 with
            | some cs => some (Char.ofNat cp :: cs)
            | none => none
        else none
      | _ => none
    else if b < 0xF8 then
      match rest with
      | b2 :: b3 :: b4 :: rest4 =>
        if utf8Cont b2 && utf8Cont b3 && utf8Cont b4 then
          let cp := (b - 0xF0) * 0x40000 + (b2 - 0x80) * 0x1000 +
            (b3 - 0x80) * 0x40 + (b4 - 0x80)
          if cp < 0x10000 then none
          else if 0x10FFFF < cp then none
          else
            match utf8DecodeF fuel rest4 with
            | some cs => some (Char.ofNat cp :: cs)
            | none => none
        else none
      | _ => none
    else none

def utf8DecodeBytes (l : List Nat) : Option String :=
  match utf8DecodeF l.length l with
  | some cs => some (String.mk cs)
  | none => none

/-- Byte encoding of an ASCII string (used for the type-URL constants, which
are all ASCII). -/
def asciiBytes (s : String) : List Nat := s.data.map Char.toNat

/-! ## Field extraction helpers (`_extract_inner_value`, `_extract_string_field`) -/

/-- `_extract_inner_value`, fuel-structured over the remaining bytes.  An
unsupported wire type ends decoding with the empty result, mirroring the
`break`; the surrounding `try/except` never surfaces an error. -/
def extractInnerValueF : Nat → List Nat → List Nat
  | 0, _ => []
  | _ + 1, [] => []
  | fuel + 1, tag :: rest =>
    let fieldNum := tag >>> 3
    let wireType := tag &&& 0x07
    if wireType = 2 then
      let r := readVarintAux rest 0 0
      let body := rest.drop r.2
      let fieldValue := body.take r.1
      if fieldNum = 2 then fieldValue
      else extractInnerValueF fuel (body.drop r.1)
    else if wireType = 0 then
      extractInnerValueF fuel (rest.drop (readVarintAux rest 0 0).2)
    else []

def extractInnerValue (command : List Nat) : List Nat :=
  extractInnerValueF command.length command

/-- `_extract_string_field`: returns the UTF-8 decode of the requested
length-delimited field, or `""` when the field is absent or any decode step
fails (the `except` path). -/
def extractStringFieldF : Nat → List Nat → Nat → String
  | 0, _, _ => ""
  | _ + 1, [], _ => ""
  | fuel + 1, tag :: rest, target =>
    let fieldNum := tag >>> 3
    let wireType := tag &&& 0x07
    if wireType = 2 then
      let r := readVarintAux rest 0 0
      let body := rest.drop r.2
      let fieldValue := body.take r.1
      if fieldNum = target then
        match utf8DecodeBytes fieldValue with
        | some s => s
        | none => ""
      else extractStringFieldF fuel (body.drop r.1) target
    else if wireType = 0 then
      extractStringFieldF fuel (rest.drop (readVarintAux rest 0 0).2) target
    else ""

def extractStringField (data : List Nat) (target : Nat) : String :=
  extractStringFieldF data.length data target

/-- A well-formed `google.protobuf.Any` buffer: field 1 (tag `0x0A`) carries
the type URL, field 2 (tag `0x12`) the inner message bytes. -/
def anyEncode (url v : List Nat) : List Nat :=
  0x0A :: (encodeVarint url.length ++ (url ++ (0x12 :: (encodeVarint v.length ++ v))))

theorem encodeVarint_length_pos (n : Nat) : 0 < (encodeVarint n).length := by
  unfold encodeVarint encodeVarintF
  by_cases h : n < 128 <;> simp [h]

theorem extractInnerValueF_nil (f : Nat) : extractInnerValueF f [] = [] := by
  cases f <;> rfl

theorem extractStringFieldF_nil (f t : Nat) : extractStringFieldF f [] t = "" := by
  cases f <;> rfl

theorem extractInnerValueF_step2 (v : List Nat) (f : Nat) :
    extractInnerValueF (f + 1) (0x12 :: (encodeVarint v.length ++ v)) = v := by
  have h18a : (0x12 : Nat) &&& 0x07 = 2 := by decide
  have h18b : (0x12 : Nat) >>> 3 = 2 := by decide
  simp only [extractInnerValueF, h18a, h18b, if_pos rfl, readVarintAux_encode]
  simp [List.drop_left]

theorem extractInnerValueF_skip (f : Nat) (payload rest : List Nat) :
    extractInnerValueF (f + 1)
        (0x0A :: (encodeVarint payload.length ++ (payload ++ rest))) =
      extractInnerValueF f rest := by
  have h10a : (0x0A : Nat) &&& 0x07 = 2 := by decide
  have h10b : (0x0A : Nat) >>> 3 = 1 := by decide
  simp only [extractInnerValueF, h10a, h10b, if_pos rfl, readVarintAux_encode]
  norm_num

theorem extractInnerValue_any (url v : List Nat) :
    extractInnerValue (anyEncode url v) = v := by
  unfold extractInnerValue anyEncode
  rw [List.length_cons, extractInnerValueF_skip]
  set t := (encodeVarint url.length ++ (url ++ 0x12 :: (encodeVarint v.length ++ v))) with ht
  have hlen : t.length = (t.length - 1) + 1 := by
    have hpos := encodeVarint_length_pos url.length
    have : 0 < t.length := by
      rw [ht]
      simp only [List.length_append]
      omega
    omega
  rw [hlen, extractInnerValueF_step2]

theorem extractInnerValue_field1_only (url : List Nat) :
    extractInnerValue (0x0A :: (encodeVarint url.length ++ url)) = [] := by
  unfold extractInnerValue
  have h : encodeVarint url.length ++ url = encodeVarint url.length ++ (url ++ []) := by
    simp
  rw [List.length_cons, h, extractInnerValueF_skip, extractInnerValueF_nil]

theorem extract_break (tag : Nat) (rest : List Nat) (h2 : tag &&& 0x07 ≠ 2)
    (h0 : tag &&& 0x07 ≠ 0) :
    extractInnerValue (tag :: rest) = [] ∧ ∀ m, extractStringField (tag :: rest) m = "" := by
  refine ⟨?_, fun m => ?_⟩
  · simp [extractInnerValue, extractInnerValueF, h2, h0]
  · simp [extractStringField, extractStringFieldF, h2, h0]

theorem extractStringField_field (n : Nat) (v : List Nat) :
    extractStringField ((n * 8 + 2) :: (encodeVarint v.length ++ v)) n =
      (utf8DecodeBytes v).getD "" := by
  have ha : (n * 8 + 2) &&& 0x07 = 2 := by
    have h := Nat.and_pow_two_sub_one_eq_mod (n * 8 + 2) 3
    norm_num at h
    rw [h]; omega
  have hb : (n * 8 + 2) >>> 3 = n := by
    rw [Nat.shiftRight_eq_div_pow]
    norm_num
    omega
  unfold extractStringField
  simp only [List.length_cons, extractStringFieldF, ha, hb, if_pos rfl,
    readVarintAux_encode]
  simp only [List.drop_left, List.take_length]
  cases h : utf8DecodeBytes v <;> simp [h]

/-- C7: the field-extraction helpers never signal a fatal error:
`_extract_inner_value` returns the raw bytes of field 2 of the `Any`
envelope (or an empty result when field 2 is absent), `_extract_string_field`
returns the UTF-8 decode of the requested length-delimited field, degrading
to `""` when the decode fails, and an unsupported wire type simply terminates
decoding with the empty result. -/
theorem extract_helpers_never_fatal :
    (∀ url v : List Nat, extractInnerValue (anyEncode url v) = v) ∧
    (∀ url : List Nat, extractInnerValue (0x0A :: (encodeVarint url.length ++ url)) = []) ∧
    (∀ tag : Nat, ∀ rest : List Nat, tag &&& 0x07 ≠ 2 → tag &&& 0x07 ≠ 0 →
      extractInnerValue (tag :: rest) = [] ∧
      ∀ m, extractStringField (tag :: rest) m = "") ∧
    (∀ n : Nat, ∀ v : List Nat,
      extractStringField ((n * 8 + 2) :: (encodeVarint v.length ++ v)) n =
        (utf8DecodeBytes v).getD "") :=
  ⟨extractInnerValue_any, extractInnerValue_field1_only, extract_break,
    extractStringField_field⟩

theorem extract_helpers_never_fatal_witness :
    extractInnerValue (anyEncode [1, 2] [3, 4]) = [3, 4] ∧
    extractInnerValue [0x1D, 9, 9] = [] ∧
    extractStringField [0x1D, 9, 9] 1 = "" ∧
    extractStringField ((1 * 8 + 2) :: (encodeVarint ([0xFF] : List Nat).length ++ [0xFF])) 1 =
      (utf8DecodeBytes [0xFF]).getD "" := by
  refine ⟨extract_helpers_never_fatal.1 [1, 2] [3, 4], ?_, ?_,
    extract_helpers_never_fatal.2.2.2 1 [0xFF]⟩
  · exact (extract_helpers_never_fatal.2.2.1 0x1D [9, 9] (by decide) (by decide)).1
  · exact (extract_helpers_never_fatal.2.2.1 0x1D [9, 9] (by decide) (by decide)).2 1

/-! ## Command classification (`_is_flight_sql_command`, `_get_command_type`) -/

def CMD_GET_CATALOGS : List Nat :=
  asciiBytes "type.googleapis.com/arrow.flight.protocol.sql.CommandGetCatalogs"

def CMD_GET_DB_SCHEMAS : List Nat :=
  asciiBytes "type.googleapis.com/arrow.flight.protocol.sql.CommandGetDbSchemas"

def CMD_GET_TABLES : List Nat :=
  asciiBytes "type.googleapis.com/arrow.flight.protocol.sql.CommandGetTables"

def CMD_GET_TABLE_TYPES : List Nat :=
  asciiBytes "type.googleapis.com/arrow.flight.protocol.sql.CommandGetTableTypes"

def CMD_STATEMENT_QUERY : List Nat :=
  asciiBytes "type.googleapis.com/arrow.flight.protocol.sql.CommandStatementQuery"

def CMD_PREPARED_STATEMENT : List Nat :=
  asciiBytes "type.googleapis.com/arrow.flight.protocol.sql.CommandPreparedStatementQuery"

def FLIGHT_SQL_URL_MARK : List Nat :=
  asciiBytes "type.googleapis.com/arrow.flight.protocol.sql"

/-- Python's `needle in hay` on bytes: contiguous-substring membership. -/
def containsSub (needle : List Nat) : List Nat → Bool
  | [] => needle.isEmpty
  | b :: t => needle.isPrefixOf (b :: t) || containsSub needle t

/-- `_is_flight_sql_command`: the fixed type-URL mark appears anywhere in the
buffer. -/
def isFlightSqlCommand (command : List Nat) : Bool :=
  containsSub FLIGHT_SQL_URL_MARK command

/-- `_get_command_type`: first of the six known type URLs, in the source's
order, that occurs in the buffer; `b""` (the empty list) otherwise. -/
def getCommandType (command : List Nat) : List Nat :=
  if containsSub CMD_GET_CATALOGS command then CMD_GET_CATALOGS
  else if containsSub CMD_GET_DB_SCHEMAS command then CMD_GET_DB_SCHEMAS
  else if containsSub CMD_GET_TABLES command then CMD_GET_TABLES
  else if containsSub CMD_GET_TABLE_TYPES command then CMD_GET_TABLE_TYPES
  else if containsSub CMD_STATEMENT_QUERY command then CMD_STATEMENT_QUERY
  else if containsSub CMD_PREPARED_STATEMENT command then CMD_PREPARED_STATEMENT
  else []

/-- The six known type URLs in the priority order of `_get_command_type`. -/
def cmdTypeList : List (List Nat) :=
  [CMD_GET_CATALOGS, CMD_GET_DB_SCHEMAS, CMD_GET_TABLES, CMD_GET_TABLE_TYPES,
    CMD_STATEMENT_QUERY, CMD_PREPARED_STATEMENT]

theorem isPrefixOf_iff_exists {α : Type} [DecidableEq α] (l₁ l₂ : List α) :
    l₁.isPrefixOf l₂ = true ↔ ∃ s, l₂ = l₁ ++ s := by
  induction l₁ generalizing l₂ with
  | nil => simp [List.isPrefixOf]
  | cons a as ih =>
    cases l₂ with
    | nil => simp [List.isPrefixOf]
    | cons b bs =>
      simp only [List.isPrefixOf, Bool.and_eq_true, beq_iff_eq, ih, List.cons_append,
        List.cons.injEq]
      constructor
      · rintro ⟨rfl, s, rfl⟩; exact ⟨s, rfl, rfl⟩
      · rintro ⟨s, rfl, rfl⟩; exact ⟨rfl, s, rfl⟩

theorem containsSub_iff (needle hay : List Nat) :
    containsSub needle hay = true ↔ ∃ p s, hay = p ++ needle ++ s := by
  induction hay with
  | nil =>
    simp only [containsSub, List.isEmpty_iff]
    constructor
    · rintro rfl; exact ⟨[], [], rfl⟩
    · rintro ⟨p, s, h⟩
      rcases List.append_eq_nil.mp (List.append_eq_nil.mp h.symm).1 with ⟨-, h2⟩
      exact h2
  | cons b t ih =>
    simp only [containsSub, Bool.or_eq_true, isPrefixOf_iff_exists, ih]
    constructor
    · rintro (⟨s, hs⟩ | ⟨p, s, hs⟩)
      · exact ⟨[], s, by simpa using hs⟩
      · exact ⟨b :: p, s, by simp [hs]⟩
    · rintro ⟨p, s, hs⟩
      cases p with
      | nil => exact Or.inl ⟨s, by simpa using hs⟩
      | cons x xs =>
        simp only [List.cons_append, List.cons.injEq] at hs
        exact Or.inr ⟨xs, s, by simp [hs.2]⟩

/-- C6: `_is_flight_sql_command` is true iff the fixed type-URL mark occurs
as a contiguous substring anywhere in the buffer, and `_get_command_type`
returns the first of the six known type URLs, in the fixed priority order
(GetCatalogs, GetDbSchemas, GetTables, GetTableTypes, StatementQuery,
PreparedStatementQuery), that occurs as a substring (the empty byte string
when none occurs). -/
theorem classification_spec (buf : List Nat) :
    (isFlightSqlCommand buf = true ↔ ∃ p s, buf = p ++ FLIGHT_SQL_URL_MARK ++ s) ∧
    getCommandType buf = (cmdTypeList.find? (fun c => containsSub c buf)).getD [] := by
  refine ⟨containsSub_iff _ _, ?_⟩
  unfold getCommandType cmdTypeList
  split_ifs <;> simp_all [List.find?]

theorem classification_spec_witness :
    isFlightSqlCommand CMD_STATEMENT_QUERY = true ∧
    getCommandType CMD_STATEMENT_QUERY = CMD_STATEMENT_QUERY := by
  constructor
  · exact (classification_spec CMD_STATEMENT_QUERY).1.mpr
      ⟨[], asciiBytes ".CommandStatementQuery", by decide⟩
  · rw [(classification_spec CMD_STATEMENT_QUERY).2]
    decide

/-! ## Three-part-name rewrite (`_rewrite_query`)

Model of `re.sub(r'(?:FROM|JOIN)\s+("?\w+"?)\.("?\w+"?)\.("?\w+"?)',
lambda m: f'FROM {m.group(2)}.{m.group(3)}', query, flags=re.IGNORECASE)`.
The pattern is deterministic (no observable backtracking: a shorter `\w+` or a
dropped optional quote always leaves the following `\.` facing a word or quote
character), so the matcher below is a direct functional transcription.
Word characters are modelled over the ASCII range, which covers every
identifier this server ever sees. -/

def isWordChar (c : Char) : Bool := c.isAlphanum || c == '_'

def isSpaceChar (c : Char) : Bool :=
  c == ' ' || c == '\t' || c == '\n' || c == '\r' || c == '\x0b' || c == '\x0c'

/-- Case-insensitive match of a four-character window against `FROM` or
`JOIN`. -/
def kwTest (a b c d : Char) : Bool :=
  ((a == 'F' || a == 'f') && (b == 'R' || b == 'r') &&
    (c == 'O' || c == 'o') && (d == 'M' || d == 'm')) ||
  ((a == 'J' || a == 'j') && (b == 'O' || b == 'o') &&
    (c == 'I' || c == 'i') && (d == 'N' || d == 'n'))

/-- Greedy parse of `\w+"?` with the input's remainder returned. -/
def parseGroupCore (l : List Char) : Option (List Char × List Char) :=
  if (l.takeWhile isWordChar).isEmpty then none
  else
    match l.drop (l.takeWhile isWordChar).length with
    | c :: r2 =>
      if c = '"' then some (l.takeWhile isWordChar ++ ['"'], r2)
      else some (l.takeWhile isWordChar, c :: r2)
    | [] => some (l.takeWhile isWordChar, [])

/-- Greedy parse of one capture group `"?\w+"?`. -/
def parseGroup : List Char → Option (List Char × List Char)
  | [] => none
  | c :: rest =>
    if c = '"' then (parseGroupCore rest).map (fun gr => ('"' :: gr.1, gr.2))
    else parseGroupCore (c :: rest)

/-- Attempt the full pattern at the head of the input; on success return the
replacement text `FROM <g2>.<g3>` and the input's remainder after the match. -/
def tryMatch : List Char → Option (List Char × List Char)
  | a :: b :: c :: d :: r1 =>
    if kwTest a b c d then
      if (r1.takeWhile isSpaceChar).isEmpty then none
      else
        match parseGroup (r1.drop (r1.takeWhile isSpaceChar).length) with
        | some g1r =>
          match g1r.2 with
          | e :: r4 =>
            if e = '.' then
              match parseGroup r4 with
              | some g2r =>
                match g2r.2 with
                | e2 :: r6 =>
                  if e2 = '.' then
                    match parseGroup r6 with
                    | some g3r =>
                      some ('F' :: 'R' :: 'O' :: 'M' :: ' ' :: (g2r.1 ++ '.' :: g3r.1),
                        g3r.2)
                    | none => none
                  else none
                | [] => none
              | none => none
            else none
          | [] => none
        | none => none
    else none
  | _ => none

/-- `re.sub` scan: find the leftmost match, emit the replacement, continue
after the match; characters before a match are copied unchanged.  The fuel is
an upper bound on the input length, so the function is structural and
evaluates by `decide`. -/
def subScanF : Nat → List Char → List Char
  | 0, l => l
  | _ + 1, [] => []
  | fuel + 1, c :: rest =>
    match tryMatch (c :: rest) with
    | some r => r.1 ++ subScanF fuel r.2
    | none => c :: subScanF fuel rest

def rewriteL (l : List Char) : List Char := subScanF l.length l

/-- `_rewrite_query`. -/
def rewriteQuery (s : String) : String := String.mk (rewriteL s.data)

/-! ### Keyword-occurrence predicates -/

/-- A keyword window starts at the head of the list. -/
def kwAt : List Char → Bool
  | a :: b :: c :: d :: _ => kwTest a b c d
  | _ => false

/-- Some keyword window starts somewhere in the list. -/
def hasKw : List Char → Bool
  | a :: b :: c :: d :: r => kwTest a b c d || hasKw (b :: c :: d :: r)
  | _ => false

/-- Characters that can open a keyword window. -/
def kwStart (c : Char) : Bool := c == 'F' || c == 'f' || c == 'J' || c == 'j'

/-- Characters that can occupy a non-initial position of a keyword window. -/
def tailKwLetter (c : Char) : Bool :=
  c == 'R' || c == 'r' || c == 'O' || c == 'o' || c == 'M' || c == 'm' ||
  c == 'I' || c == 'i' || c == 'N' || c == 'n'

/-- No keyword window starts inside `x` when scanning `x ++ rest`. -/
def NoKwOver (x rest : List Char) : Prop :=
  ∀ p, p < x.length → kwAt ((x ++ rest).drop p) = false

/-! ### Structured three-part references -/

/-- One identifier of a qualified name: optionally double-quoted, with a
nonempty word-character body that does not itself contain a `FROM`/`JOIN`
window. -/
structure SqlId where
  quoted : Bool
  name : List Char

def SqlId.render (p : SqlId) : List Char :=
  if p.quoted then '"' :: (p.name ++ ['"']) else p.name

def SqlId.ok (p : SqlId) : Bool :=
  !p.name.isEmpty && p.name.all isWordChar && !hasKw p.name

/-- The capture-group parse of this identifier stops exactly at its rendered
boundary when followed by `z`: a quoted identifier is self-delimiting, a bare
one requires the next character to be neither a word character nor `"`. -/
def idStops (p : SqlId) (z : List Char) : Bool :=
  p.quoted ||
    (match z with
     | [] => true
     | y :: _ => !(isWordChar y) && y != '"')

/-- The character after the reference is not a dot (the reference is a
three-part name, not a prefix of a longer dotted chain). -/
def afterTbl (z : List Char) : Bool :=
  match z with
  | [] => true
  | y :: _ => y != '.'

/-- One `FROM`/`JOIN` three-part reference: the keyword (any letter case),
whitespace, and `cat.sch.tbl`. -/
structure Ref where
  kw : List Char
  ws : List Char
  cat : SqlId
  sch : SqlId
  tbl : SqlId

def Ref.render (r : Ref) : List Char :=
  r.kw ++ (r.ws ++ (r.cat.render ++ ('.' :: (r.sch.render ++ ('.' :: r.tbl.render)))))

/-- The replacement the rewrite produces for this reference. -/
def Ref.rw (r : Ref) : List Char :=
  'F' :: 'R' :: 'O' :: 'M' :: ' ' :: (r.sch.render ++ ('.' :: r.tbl.render))

def kwOk (kw : List Char) : Bool :=
  match kw with
  | [a, b, c, d] => kwTest a b c d
  | _ => false

def Ref.ok (r : Ref) : Bool :=
  kwOk r.kw && !r.ws.isEmpty && r.ws.all isSpaceChar &&
    r.cat.ok && r.sch.ok && r.tbl.ok

/-- A query as alternating plain segments and three-part references.  Plain
segments contain no `FROM`/`JOIN` window of their own. -/
inductive Q where
  | last (seg : List Char)
  | cons (seg : List Char) (r : Ref) (rest : Q)

def Q.render : Q → List Char
  | .last seg => seg
  | .cons seg r rest => seg ++ (r.render ++ rest.render)

/-- The rewrite's output on a structured query: every reference replaced by
its two-part `FROM` form. -/
def Q.renderRW : Q → List Char
  | .last seg => seg
  | .cons seg r rest => seg ++ (r.rw ++ rest.renderRW)

def Q.ok : Q → Bool
  | .last seg => !hasKw seg
  | .cons seg r rest =>
    !hasKw seg && r.ok && idStops r.tbl rest.render &&
      idStops r.tbl rest.renderRW && afterTbl rest.renderRW && rest.ok

/-! ### Character-class and keyword-window facts -/

theorem word_not_space {c : Char} (h : isWordChar c = true) : isSpaceChar c = false := by
  cases hs : isSpaceChar c
  · rfl
  · exfalso
    simp only [isSpaceChar, Bool.or_eq_true, beq_iff_eq] at hs
    rcases hs with ((((rfl | rfl) | rfl) | rfl) | rfl) | rfl <;> simp [isWordChar] at h

theorem kwTest_shape {a b c d : Char} (h : kwTest a b c d = true) :
    ((a = 'F' ∨ a = 'f') ∧ (b = 'R' ∨ b = 'r') ∧ (c = 'O' ∨ c = 'o') ∧ (d = 'M' ∨ d = 'm')) ∨
    ((a = 'J' ∨ a = 'j') ∧ (b = 'O' ∨ b = 'o') ∧ (c = 'I' ∨ c = 'i') ∧ (d = 'N' ∨ d = 'n')) := by
  simp only [kwTest, Bool.or_eq_true, Bool.and_eq_true, beq_iff_eq] at h
  tauto

theorem kwTest_false_of_start {a b c d : Char} (h : kwStart a = false) :
    kwTest a b c d = false := by
  cases hk : kwTest a b c d
  · rfl
  · rcases kwTest_shape hk with ⟨ha, -⟩ | ⟨ha, -⟩ <;>
      rcases ha with rfl | rfl <;> simp [kwStart] at h

theorem kwTest_false_of_tail2 {a b c d : Char} (h : tailKwLetter b = false) :
    kwTest a b c d = false := by
  cases hk : kwTest a b c d
  · rfl
  · rcases kwTest_shape hk with ⟨-, hb, -⟩ | ⟨-, hb, -⟩ <;>
      rcases hb with rfl | rfl <;> simp [tailKwLetter] at h

theorem kwTest_false_of_tail3 {a b c d : Char} (h : tailKwLetter c = false) :
    kwTest a b c d = false := by
  cases hk : kwTest a b c d
  · rfl
  · rcases kwTest_shape hk with ⟨-, -, hc, -⟩ | ⟨-, -, hc, -⟩ <;>
      rcases hc with rfl | rfl <;> simp [tailKwLetter] at h

theorem kwTest_false_of_tail4 {a b c d : Char} (h : tailKwLetter d = false) :
    kwTest a b c d = false := by
  cases hk : kwTest a b c d
  · rfl
  · rcases kwTest_shape hk with ⟨-, -, -, hd⟩ | ⟨-, -, -, hd⟩ <;>
      rcases hd with rfl | rfl <;> simp [tailKwLetter] at h

theorem tailKwLetter_word {c : Char} (h : tailKwLetter c = true) : isWordChar c = true := by
  simp only [tailKwLetter, Bool.or_eq_true, beq_iff_eq] at h
  rcases h with
    ((((((((rfl | rfl) | rfl) | rfl) | rfl) | rfl) | rfl) | rfl) | rfl) | rfl <;> decide

theorem kwStart_not_tail {c : Char} (h : kwStart c = true) : tailKwLetter c = false := by
  simp only [kwStart, Bool.or_eq_true, beq_iff_eq] at h
  rcases h with ((rfl | rfl) | rfl) | rfl <;> decide

theorem hasKw_tail {c : Char} {l : List Char} (h : hasKw (c :: l) = false) :
    hasKw l = false := by
  match l with
  | [] => rfl
  | [_] => rfl
  | [_, _] => rfl
  | x1 :: x2 :: x3 :: t =>
    simp only [hasKw, Bool.or_eq_false_iff] at h
    exact h.2

theorem kwAt_short {l : List Char} (h : l.length < 4) : kwAt l = false := by
  match l with
  | [] => rfl
  | [_] => rfl
  | [_, _] => rfl
  | [_, _, _] => rfl
  | _ :: _ :: _ :: _ :: _ => simp at h; omega

theorem kwAt_false_of_head {c : Char} (w : List Char) (hc : kwStart c = false) :
    kwAt (c :: w) = false := by
  match w with
  | [] => rfl
  | [_] => rfl
  | [_, _] => rfl
  | x1 :: x2 :: x3 :: t => exact kwTest_false_of_start hc

theorem tryMatch_none_of_kwAt {l : List Char} (h : kwAt l = false) : tryMatch l = none := by
  match l with
  | [] => rfl
  | [_] => rfl
  | [_, _] => rfl
  | [_, _, _] => rfl
  | a :: b :: c :: d :: r =>
    simp only [kwAt] at h
    simp [tryMatch, h]

/-! ### `NoKwOver` combinators -/

theorem noKwOver_nil (rest : List Char) : NoKwOver [] rest := by
  intro p hp; simp at hp

theorem noKwOver_cons {c : Char} {x rest : List Char} (hc : kwStart c = false)
    (hx : NoKwOver x rest) : NoKwOver (c :: x) rest := by
  intro p hp
  cases p with
  | zero =>
    simpa [List.cons_append] using kwAt_false_of_head (x ++ rest) hc
  | succ p' =>
    have := hx p' (by simp at hp; omega)
    simpa [List.cons_append, List.drop_succ_cons] using this

theorem noKwOver_append {x y rest : List Char} (hx : NoKwOver x (y ++ rest))
    (hy : NoKwOver y rest) : NoKwOver (x ++ y) rest := by
  intro p hp
  rw [List.length_append] at hp
  by_cases hcase : p < x.length
  · have := hx p hcase
    simpa [List.append_assoc] using this
  · have hle : x.length ≤ p := by omega
    obtain ⟨p', rfl⟩ : ∃ p', p = x.length + p' := ⟨p - x.length, by omega⟩
    have := hy p' (by omega)
    rw [List.append_assoc, ← List.drop_drop, List.drop_left]
    exact this

/-- A run of word characters containing no keyword window, followed by a
character that cannot occupy a non-initial keyword-window slot (or by the end
of the input), admits no keyword window starting inside it. -/
theorem noKwOver_run : ∀ (x rest : List Char), hasKw x = false →
    (rest = [] ∨ ∃ y t, rest = y :: t ∧ tailKwLetter y = false) →
    NoKwOver x rest := by
  intro x
  induction x with
  | nil => intro rest _ _; exact noKwOver_nil rest
  | cons c x' ih =>
    intro rest hkw hrest
    intro p hp
    cases p with
    | zero =>
      simp only [List.drop_zero, List.cons_append]
      match x', rest, hrest with
      | [], [], _ => rfl
      | [], y :: t, hrest =>
        match t with
        | [] => rfl
        | [_] => rfl
        | t0 :: t1 :: t' =>
          rcases hrest with h | ⟨y', t'', heq, hy⟩
          · exact absurd h (by simp)
          · cases heq
            exact kwTest_false_of_tail2 hy
      | [x1], [], _ => rfl
      | [x1], y :: t, hrest =>
        match t with
        | [] => rfl
        | t0 :: t' =>
          rcases hrest with h | ⟨y', t'', heq, hy⟩
          · exact absurd h (by simp)
          · cases heq
            exact kwTest_false_of_tail3 hy
      | [x1, x2], [], _ => rfl
      | [x1, x2], y :: t, hrest =>
        rcases hrest with h | ⟨y', t'', heq, hy⟩
        · exact absurd h (by simp)
        · cases heq
          exact kwTest_false_of_tail4 hy
      | x1 :: x2 :: x3 :: t, rest, _ =>
        simp only [hasKw, Bool.or_eq_false_iff] at hkw
        simpa [List.cons_append] using hkw.1
    | succ p' =>
      have hkw' : hasKw x' = false := hasKw_tail hkw
      have := ih rest hkw' hrest p' (by simp at hp; omega)
      simpa [List.cons_append, List.drop_succ_cons] using this

/-! ### Parse lemmas over rendered identifiers -/

theorem takeWhile_append_of {p : Char → Bool} :
    ∀ (xs ys : List Char), (∀ c ∈ xs, p c = true) →
      (ys = [] ∨ ∃ y t, ys = y :: t ∧ p y = false) →
      (xs ++ ys).takeWhile p = xs := by
  intro xs ys hxs hys
  induction xs with
  | nil =>
    rcases hys with rfl | ⟨y, t, rfl, hy⟩
    · rfl
    · simp [List.takeWhile_cons, hy]
  | cons c cs ih =>
    have hc := hxs c (by simp)
    simp only [List.cons_append, List.takeWhile_cons, hc, if_true]
    rw [ih (fun c' hc' => hxs c' (by simp [hc']))]

theorem parseGroupCore_quote (name z' : List Char) (hne : name.isEmpty = false)
    (hw : ∀ c ∈ name, isWordChar c = true) :
    parseGroupCore (name ++ ('"' :: z')) = some (name ++ ['"'], z') := by
  have htw : ((name ++ ('"' :: z')).takeWhile isWordChar) = name :=
    takeWhile_append_of name ('"' :: z') hw (Or.inr ⟨'"', z', rfl, by decide⟩)
  simp only [parseGroupCore, htw, hne, Bool.false_eq_true, if_false, List.drop_left]
  simp

theorem parseGroupCore_noquote (name z : List Char) (hne : name.isEmpty = false)
    (hw : ∀ c ∈ name, isWordChar c = true)
    (hz : z = [] ∨ ∃ y t, z = y :: t ∧ isWordChar y = false ∧ y ≠ '"') :
    parseGroupCore (name ++ z) = some (name, z) := by
  have htw : ((name ++ z).takeWhile isWordChar) = name :=
    takeWhile_append_of name z hw
      (by rcases hz with rfl | ⟨y, t, rfl, hy, -⟩
          · exact Or.inl rfl
          · exact Or.inr ⟨y, t, rfl, hy⟩)
  simp only [parseGroupCore, htw, hne, Bool.false_eq_true, if_false, List.drop_left]
  rcases hz with rfl | ⟨y, t, rfl, -, hy2⟩
  · rfl
  · simp [hy2]

theorem sqlId_ok_parts {p : SqlId} (hok : p.ok = true) :
    p.name.isEmpty = false ∧ (∀ c ∈ p.name, isWordChar c = true) ∧ hasKw p.name = false := by
  simp only [SqlId.ok, Bool.and_eq_true, Bool.not_eq_true'] at hok
  exact ⟨hok.1.1, fun c hc => by
    have := hok.1.2
    simp only [List.all_eq_true] at this
    exact this c hc, hok.2⟩

theorem parseGroup_render (p : SqlId) (z : List Char) (hok : p.ok = true)
    (hz : idStops p z = true) :
    parseGroup (p.render ++ z) = some (p.render, z) := by
  obtain ⟨hne, hw, -⟩ := sqlId_ok_parts hok
  cases hq : p.quoted
  · have hzc : z = [] ∨ ∃ y t, z = y :: t ∧ isWordChar y = false ∧ y ≠ '"' := by
      simp only [idStops, hq, Bool.false_or] at hz
      match z, hz with
      | [], _ => exact Or.inl rfl
      | y :: t, hz =>
        simp only [Bool.and_eq_true, Bool.not_eq_true', bne_iff_ne] at hz
        exact Or.inr ⟨y, t, rfl, hz.1, hz.2⟩
    obtain ⟨n0, name', hn⟩ : ∃ n0 name', p.name = n0 :: name' := by
      cases hcase : p.name
      · rw [hcase] at hne; simp at hne
      · exact ⟨_, _, rfl⟩
    have hn0 : ¬ n0 = '"' := by
      intro hcontra
      have := hw n0 (by rw [hn]; simp)
      rw [hcontra] at this
      simp [isWordChar] at this
    have hrender : p.render = n0 :: name' := by simp [SqlId.render, hq, hn]
    rw [hrender, List.cons_append, parseGroup, if_neg hn0, ← List.cons_append, ← hn]
    exact parseGroupCore_noquote p.name z hne hw hzc
  · have hrender : p.render = '"' :: (p.name ++ ['"']) := by simp [SqlId.render, hq]
    rw [hrender]
    have hassoc : ('"' :: (p.name ++ ['"'])) ++ z = '"' :: (p.name ++ ('"' :: z)) := by
      simp
    rw [hassoc, parseGroup, if_pos rfl,
      parseGroupCore_quote p.name z hne hw]
    rfl

theorem idStops_dot (p : SqlId) (w : List Char) : idStops p ('.' :: w) = true := by
  unfold idStops
  cases p.quoted <;> simp <;> decide

theorem kwOk_shape {kw : List Char} (h : kwOk kw = true) :
    ∃ a b c d, kw = [a, b, c, d] ∧ kwTest a b c d = true := by
  match kw with
  | [] => exact absurd h (by simp [kwOk])
  | [_] => exact absurd h (by simp [kwOk])
  | [_, _] => exact absurd h (by simp [kwOk])
  | [_, _, _] => exact absurd h (by simp [kwOk])
  | [a, b, c, d] => exact ⟨a, b, c, d, rfl, h⟩
  | _ :: _ :: _ :: _ :: _ :: _ => exact absurd h (by simp [kwOk])

theorem render_head_not_space (p : SqlId) (hok : p.ok = true) :
    ∃ y t, p.render = y :: t ∧ isSpaceChar y = false := by
  obtain ⟨hne, hw, -⟩ := sqlId_ok_parts hok
  cases hq : p.quoted
  · obtain ⟨n0, name', hn⟩ : ∃ n0 name', p.name = n0 :: name' := by
      cases hcase : p.name
      · rw [hcase] at hne; simp at hne
      · exact ⟨_, _, rfl⟩
    exact ⟨n0, name', by simp [SqlId.render, hq, hn],
      word_not_space (hw n0 (by rw [hn]; simp))⟩
  · exact ⟨'"', p.name ++ ['"'], by simp [SqlId.render, hq], by decide⟩

theorem ref_ok_parts {r : Ref} (hok : r.ok = true) :
    kwOk r.kw = true ∧ r.ws.isEmpty = false ∧ (∀ c ∈ r.ws, isSpaceChar c = true) ∧
      r.cat.ok = true ∧ r.sch.ok = true ∧ r.tbl.ok = true := by
  simp only [Ref.ok, Bool.and_eq_true, Bool.not_eq_true'] at hok
  refine ⟨hok.1.1.1.1.1, hok.1.1.1.1.2, fun c hc => ?_, hok.1.1.2, hok.1.2, hok.2⟩
  have := hok.1.1.1.2
  simp only [List.all_eq_true] at this
  exact this c hc

/-- The pattern matches exactly a well-formed rendered reference, producing
the `FROM sch.tbl` replacement and leaving the remainder untouched. -/
theorem tryMatch_ref (r : Ref) (z : List Char) (hok : r.ok = true)
    (hz : idStops r.tbl z = true) :
    tryMatch (r.render ++ z) = some (r.rw, z) := by
  obtain ⟨hkwok, hwsne, hws, hcat, hsch, htbl⟩ := ref_ok_parts hok
  obtain ⟨a, b, c, d, hkw, htest⟩ := kwOk_shape hkwok
  have hr : r.render ++ z =
      a :: b :: c :: d ::
        (r.ws ++ (r.cat.render ++ ('.' :: (r.sch.render ++ ('.' :: (r.tbl.render ++ z)))))) := by
    rw [Ref.render, hkw]
    simp [List.append_assoc]
  obtain ⟨y0, t0, hhead, hy0⟩ := render_head_not_space r.cat hcat
  have htw : ((r.ws ++ (r.cat.render ++ ('.' :: (r.sch.render ++ ('.' :: (r.tbl.render ++ z)))))).takeWhile isSpaceChar) = r.ws := by
    apply takeWhile_append_of _ _ hws
    exact Or.inr ⟨y0, t0 ++ ('.' :: (r.sch.render ++ ('.' :: (r.tbl.render ++ z)))),
      by rw [hhead]; simp, hy0⟩
  rw [hr]
  show tryMatch (a :: b :: c :: d :: _) = _
  rw [tryMatch, if_pos htest, htw]
  rw [if_neg (by rw [hwsne]; simp), List.drop_left]
  simp [parseGroup_render r.cat _ hcat (idStops_dot _ _),
    parseGroup_render r.sch _ hsch (idStops_dot _ _),
    parseGroup_render r.tbl _ htbl hz, Ref.rw]

theorem subScanF_nil (f : Nat) : subScanF f [] = [] := by
  cases f <;> rfl

theorem subScanF_copy : ∀ (x rest : List Char) (f : Nat),
    (x ++ rest).length ≤ f →
    (∀ p, p < x.length → tryMatch ((x ++ rest).drop p) = none) →
    subScanF f (x ++ rest) = x ++ subScanF (f - x.length) rest := by
  intro x
  induction x with
  | nil => intro rest f _ _; simp
  | cons c x' ih =>
    intro rest f hf h
    cases f with
    | zero => simp at hf
    | succ f' =>
      have h0 : tryMatch (c :: (x' ++ rest)) = none := by
        have := h 0 (by simp)
        simpa using this
      have harith : f' + 1 - (c :: x').length = f' - x'.length := by
        simp only [List.length_cons]; omega
      have hih := ih rest f' (by simp at hf ⊢; omega)
        (fun p hp => by
          have := h (p + 1) (by simp; omega)
          simpa [List.drop_succ_cons] using this)
      rw [harith]
      calc subScanF (f' + 1) ((c :: x') ++ rest)
          = subScanF (f' + 1) (c :: (x' ++ rest)) := by rw [List.cons_append]
        _ = c :: subScanF f' (x' ++ rest) := by
            simp only [subScanF, List.append_eq, h0]
        _ = c :: (x' ++ subScanF (f' - x'.length) rest) := by rw [hih]
        _ = (c :: x') ++ subScanF (f' - x'.length) rest := by simp

/-- No keyword window starts inside a rendered identifier whose group parse
stops at its boundary. -/
theorem noKwOver_id (p : SqlId) (z : List Char) (hok : p.ok = true)
    (hz : idStops p z = true) : NoKwOver p.render z := by
  obtain ⟨hne, hw, hkw⟩ := sqlId_ok_parts hok
  cases hq : p.quoted
  · have hrender : p.render = p.name := by simp [SqlId.render, hq]
    rw [hrender]
    apply noKwOver_run p.name z hkw
    simp only [idStops, hq, Bool.false_or] at hz
    match z, hz with
    | [], _ => exact Or.inl rfl
    | y :: t, hz =>
      simp only [Bool.and_eq_true, Bool.not_eq_true'] at hz
      refine Or.inr ⟨y, t, rfl, ?_⟩
      cases ht : tailKwLetter y
      · rfl
      · exact absurd (tailKwLetter_word ht) (by simp [hz.1])
  · have hrender : p.render = '"' :: (p.name ++ ['"']) := by simp [SqlId.render, hq]
    rw [hrender]
    apply noKwOver_cons (by decide)
    apply noKwOver_append (x := p.name) (y := ['"'])
    · exact noKwOver_run p.name (['"'] ++ z) hkw (Or.inr ⟨'"', z, rfl, by decide⟩)
    · exact noKwOver_cons (by decide) (noKwOver_nil z)

/-- No keyword window starts after the leading `F` of a produced
`FROM sch.tbl` replacement. -/
theorem noKwOver_rwTail (r : Ref) (z : List Char) (hok : r.ok = true)
    (hz : idStops r.tbl z = true) :
    NoKwOver ('R' :: 'O' :: 'M' :: ' ' :: (r.sch.render ++ ('.' :: r.tbl.render))) z := by
  obtain ⟨-, -, -, -, hsch, htbl⟩ := ref_ok_parts hok
  apply noKwOver_cons (by decide)
  apply noKwOver_cons (by decide)
  apply noKwOver_cons (by decide)
  apply noKwOver_cons (by decide)
  apply noKwOver_append
  · have : (('.' :: r.tbl.render) ++ z) = '.' :: (r.tbl.render ++ z) := by simp
    rw [this]
    exact noKwOver_id r.sch _ hsch (idStops_dot _ _)
  · exact noKwOver_cons (by decide) (noKwOver_id r.tbl z htbl hz)

/-- The pattern does not match at the head of a produced `FROM sch.tbl`
replacement: there is no second dot after the two-part name. -/
theorem tryMatch_rw_none (r : Ref) (z : List Char) (hok : r.ok = true)
    (hz : idStops r.tbl z = true) (hz2 : afterTbl z = true) :
    tryMatch (r.rw ++ z) = none := by
  obtain ⟨-, -, -, -, hsch, htbl⟩ := ref_ok_parts hok
  have hr : r.rw ++ z = 'F' :: 'R' :: 'O' :: 'M' :: ' ' ::
      (r.sch.render ++ ('.' :: (r.tbl.render ++ z))) := by
    simp [Ref.rw, List.append_assoc]
  obtain ⟨y0, t0, hhead, hy0⟩ := render_head_not_space r.sch hsch
  have htw : ((' ' :: (r.sch.render ++ ('.' :: (r.tbl.render ++ z)))).takeWhile isSpaceChar)
      = [' '] := by
    have h1 : (' ' :: (r.sch.render ++ ('.' :: (r.tbl.render ++ z))))
        = [' '] ++ (r.sch.render ++ ('.' :: (r.tbl.render ++ z))) := by simp
    rw [h1]
    apply takeWhile_append_of
    · intro ch hc; simp at hc; subst hc; decide
    · exact Or.inr ⟨y0, t0 ++ ('.' :: (r.tbl.render ++ z)), by rw [hhead]; simp, hy0⟩
  rw [hr, tryMatch, if_pos (by decide), htw]
  rw [if_neg (by simp)]
  simp only [List.length_cons, List.length_nil, List.drop_succ_cons, List.drop_zero]
  rw [parseGroup_render r.sch _ hsch (idStops_dot _ _)]
  simp only
  rw [if_pos trivial, parseGroup_render r.tbl _ htbl hz]
  cases z with
  | nil => simp
  | cons y t =>
    simp only [afterTbl, bne_iff_ne] at hz2
    simp [hz2]

theorem q_ok_cons {seg : List Char} {r : Ref} {rest : Q}
    (hok : (Q.cons seg r rest).ok = true) :
    hasKw seg = false ∧ r.ok = true ∧ idStops r.tbl rest.render = true ∧
      idStops r.tbl rest.renderRW = true ∧ afterTbl rest.renderRW = true ∧
      rest.ok = true := by
  simp only [Q.ok, Bool.and_eq_true, Bool.not_eq_true'] at hok
  exact ⟨hok.1.1.1.1.1, hok.1.1.1.1.2, hok.1.1.1.2, hok.1.1.2, hok.1.2, hok.2⟩

theorem ref_render_ne_nil (r : Ref) (hok : r.ok = true) :
    ∃ a t, r.render = a :: t ∧ tailKwLetter a = false := by
  obtain ⟨a, b, c, d, hkw, htest⟩ := kwOk_shape (ref_ok_parts hok).1
  refine ⟨a, b :: c :: d ::
      (r.ws ++ (r.cat.render ++ ('.' :: (r.sch.render ++ ('.' :: r.tbl.render))))),
    by rw [Ref.render, hkw]; simp, kwStart_not_tail ?_⟩
  rcases kwTest_shape htest with ⟨ha, -⟩ | ⟨ha, -⟩ <;>
    rcases ha with rfl | rfl <;> decide

/-- One `re.sub` pass turns a well-formed structured query into its
reference-by-reference rewritten form. -/
theorem scan_render : ∀ (q : Q), q.ok = true → ∀ f, q.render.length ≤ f →
    subScanF f q.render = q.renderRW := by
  intro q
  induction q with
  | last seg =>
    intro hok f hf
    have hkw : hasKw seg = false := by simpa [Q.ok] using hok
    show subScanF f seg = seg
    have hno : ∀ p, p < seg.length → tryMatch ((seg ++ ([] : List Char)).drop p) = none :=
      fun p hp => tryMatch_none_of_kwAt (noKwOver_run seg [] hkw (Or.inl rfl) p hp)
    have := subScanF_copy seg [] f (by simpa using hf) hno
    simpa [subScanF_nil] using this
  | cons seg r rest ih =>
    intro hok f hf
    obtain ⟨hseg, hrok, hstop1, hstop2, haft, hrest⟩ := q_ok_cons hok
    obtain ⟨a, t, hat, hta⟩ := ref_render_ne_nil r hrok
    show subScanF f (seg ++ (r.render ++ rest.render)) = seg ++ (r.rw ++ rest.renderRW)
    have hno : ∀ p, p < seg.length →
        tryMatch ((seg ++ (r.render ++ rest.render)).drop p) = none := by
      intro p hp
      refine tryMatch_none_of_kwAt (noKwOver_run seg _ hseg ?_ p hp)
      exact Or.inr ⟨a, t ++ rest.render, by rw [hat]; simp, hta⟩
    have hflen : (seg ++ (r.render ++ rest.render)).length ≤ f := by
      simpa [Q.render] using hf
    rw [subScanF_copy seg _ f hflen hno]
    have hf' : (r.render ++ rest.render).length ≤ f - seg.length := by
      simp only [List.length_append] at hflen ⊢
      omega
    obtain ⟨f'', hf''⟩ : ∃ f'', f - seg.length = f'' + 1 := by
      refine ⟨f - seg.length - 1, ?_⟩
      have h1 : 1 ≤ (r.render ++ rest.render).length := by
        rw [hat]; simp
      omega
    have hmatch : tryMatch (r.render ++ rest.render) = some (r.rw, rest.render) :=
      tryMatch_ref r rest.render hrok hstop1
    have hstep : subScanF (f - seg.length) (r.render ++ rest.render) =
        r.rw ++ subScanF f'' rest.render := by
      rw [hf'']
      have hcons : r.render ++ rest.render = a :: (t ++ rest.render) := by
        rw [hat]; simp
      rw [hcons]
      simp only [subScanF]
      rw [← hcons, hmatch]
    rw [hstep, ih hrest f'' (by
      have h1 : 1 ≤ r.render.length := by rw [hat]; simp
      simp only [List.length_append] at hf'
      omega)]

/-- A second `re.sub` pass over the rewritten form changes nothing: no match
starts anywhere in it. -/
theorem scan_renderRW : ∀ (q : Q), q.ok = true → ∀ f, q.renderRW.length ≤ f →
    subScanF f q.renderRW = q.renderRW := by
  intro q
  induction q with
  | last seg =>
    intro hok f hf
    have hkw : hasKw seg = false := by simpa [Q.ok] using hok
    show subScanF f seg = seg
    have hno : ∀ p, p < seg.length → tryMatch ((seg ++ ([] : List Char)).drop p) = none :=
      fun p hp => tryMatch_none_of_kwAt (noKwOver_run seg [] hkw (Or.inl rfl) p hp)
    have := subScanF_copy seg [] f (by simpa using hf) hno
    simpa [subScanF_nil] using this
  | cons seg r rest ih =>
    intro hok f hf
    obtain ⟨hseg, hrok, hstop1, hstop2, haft, hrest⟩ := q_ok_cons hok
    show subScanF f (seg ++ (r.rw ++ rest.renderRW)) = seg ++ (r.rw ++ rest.renderRW)
    have hnoSeg : ∀ p, p < seg.length →
        tryMatch ((seg ++ (r.rw ++ rest.renderRW)).drop p) = none := by
      intro p hp
      refine tryMatch_none_of_kwAt (noKwOver_run seg _ hseg ?_ p hp)
      exact Or.inr ⟨'F', ('R' :: 'O' :: 'M' :: ' ' ::
        (r.sch.render ++ ('.' :: r.tbl.render))) ++ rest.renderRW, by simp [Ref.rw], by decide⟩
    have hflen : (seg ++ (r.rw ++ rest.renderRW)).length ≤ f := by
      simpa [Q.renderRW] using hf
    rw [subScanF_copy seg _ f hflen hnoSeg]
    have hnoRw : ∀ p, p < r.rw.length →
        tryMatch ((r.rw ++ rest.renderRW).drop p) = none := by
      intro p hp
      cases p with
      | zero =>
        simpa using tryMatch_rw_none r rest.renderRW hrok hstop2 haft
      | succ p' =>
        apply tryMatch_none_of_kwAt
        have hsplit : (r.rw ++ rest.renderRW).drop (p' + 1) =
            ((('R' :: 'O' :: 'M' :: ' ' :: (r.sch.render ++ ('.' :: r.tbl.render))) ++
              rest.renderRW).drop p') := by
          simp [Ref.rw]
        rw [hsplit]
        exact noKwOver_rwTail r rest.renderRW hrok hstop2 p'
          (by
            have hlen : r.rw.length =
                ('R' :: 'O' :: 'M' :: ' ' ::
                  (r.sch.render ++ ('.' :: r.tbl.render))).length + 1 := by
              simp [Ref.rw]
            omega)
    have hf' : (r.rw ++ rest.renderRW).length ≤ f - seg.length := by
      simp only [List.length_append] at hflen ⊢
      omega
    rw [subScanF_copy r.rw rest.renderRW (f - seg.length) hf' hnoRw]
    rw [ih hrest (f - seg.length - r.rw.length) (by
      simp only [List.length_append] at hf'
      omega)]

/-- The keyword of a reference is a letter-case variant of `JOIN`. -/
def isJoinKw : List Char → Bool
  | [a, b, c, d] =>
    (a == 'J' || a == 'j') && (b == 'O' || b == 'o') &&
      (c == 'I' || c == 'i') && (d == 'N' || d == 'n')
  | _ => false

/-- C4: the three-part-name rewrite is idempotent.  For every SQL string that
decomposes into plain segments and well-formed three-part `FROM`/`JOIN`
references `cat.schema.table` (quoted or bare), applying `_rewrite_query` to
its own output yields the same string as applying it once. -/
theorem rewrite_idempotent (s : String) (q : Q) (hdec : s.data = q.render)
    (hok : q.ok = true) :
    rewriteQuery (rewriteQuery s) = rewriteQuery s := by
  have h1 : rewriteL s.data = q.renderRW := by
    rw [hdec]
    exact scan_render q hok _ le_rfl
  calc rewriteQuery (rewriteQuery s)
      = String.mk (rewriteL (rewriteL s.data)) := rfl
    _ = String.mk (rewriteL q.renderRW) := by rw [h1]
    _ = String.mk q.renderRW := by
        unfold rewriteL
        rw [scan_renderRW q hok _ le_rfl]
    _ = rewriteQuery s := by
        unfold rewriteQuery
        rw [h1]

theorem rewrite_idempotent_witness :
    rewriteQuery (rewriteQuery "SELECT * FROM \"test\".\"main\".\"numbers\" WHERE id < 5") =
      rewriteQuery "SELECT * FROM \"test\".\"main\".\"numbers\" WHERE id < 5" :=
  rewrite_idempotent _
    (Q.cons "SELECT * ".data
      ⟨"FROM".data, [' '], ⟨true, "test".data⟩, ⟨true, "main".data⟩, ⟨true, "numbers".data⟩⟩
      (Q.last " WHERE id < 5".data))
    (by decide) (by decide)

/-- C9: a three-part reference introduced by the `JOIN` keyword is replaced by
a clause that begins with `FROM`: the rewrite substitutes `FROM` for the
matched `JOIN` keyword rather than preserving it. -/
theorem join_becomes_from (s : String) (seg : List Char) (r : Ref) (rest : Q)
    (hdec : s.data = (Q.cons seg r rest).render)
    (hok : (Q.cons seg r rest).ok = true)
    (_hjoin : isJoinKw r.kw = true) :
    rewriteQuery s = String.mk (seg ++ (('F' :: 'R' :: 'O' :: 'M' :: ' ' ::
      (r.sch.render ++ ('.' :: r.tbl.render))) ++ rest.renderRW)) := by
  have h1 : rewriteL s.data = (Q.cons seg r rest).renderRW := by
    rw [hdec]
    exact scan_render _ hok _ le_rfl
  unfold rewriteQuery
  rw [h1]
  rfl

theorem join_becomes_from_witness :
    rewriteQuery "SELECT a JOIN alt.main.numbers ON x" =
      "SELECT a FROM main.numbers ON x" := by
  have h := join_becomes_from "SELECT a JOIN alt.main.numbers ON x" "SELECT a ".data
    ⟨"JOIN".data, [' '], ⟨false, "alt".data⟩, ⟨false, "main".data⟩, ⟨false, "numbers".data⟩⟩
    (Q.last " ON x".data) (by decide) (by decide) (by decide)
  rw [h]
  decide

/-! ## Arrow tables, fixtures and the server registry -/

/-- Column type, recording the column encoding (dictionary and run-end
encodings are distinct from plain columns). -/
inductive DType where
  | i64 : DType
  | str : DType
  | bin : DType
  | dictStr : DType
  | ree64 : DType
  deriving DecidableEq

inductive Val where
  | i : Int → Val
  | s : String → Val
  | b : List Nat → Val
  deriving DecidableEq

structure ArrowTable where
  schema : List (String × DType)
  rows : List (List Val)
  deriving DecidableEq

/-- The `dictionary_test` fixture: dictionary indices `[0, 1, 0, 2, 1]` over
the values `["alpha", "beta", "gamma"]`, as a dictionary-encoded column. -/
def dictionaryTestTable : ArrowTable :=
  ⟨[("dict_col", DType.dictStr)],
    [[Val.s "alpha"], [Val.s "beta"], [Val.s "alpha"], [Val.s "gamma"], [Val.s "beta"]]⟩

/-- The `run_end_test` fixture: run ends `[2, 4, 6]` with values `[1, 2, 3]`,
as a run-end-encoded column. -/
def runEndTestTable : ArrowTable :=
  ⟨[("ree_col", DType.ree64)],
    [[Val.i 1], [Val.i 1], [Val.i 2], [Val.i 2], [Val.i 3], [Val.i 3]]⟩

/-- `self.arrow_tables`. -/
def arrowTables : List (String × ArrowTable) :=
  [("dictionary_test", dictionaryTestTable), ("run_end_test", runEndTestTable)]

/-! ## First-FROM-target extraction (`_arrow_table_for_query`) -/

def fromTest (a b c d : Char) : Bool :=
  (a == 'F' || a == 'f') && (b == 'R' || b == 'r') &&
    (c == 'O' || c == 'o') && (d == 'M' || d == 'm')

def notSpaceSemi (c : Char) : Bool := !(isSpaceChar c) && c != ';'

/-- One attempt of `re.search(r"FROM\s+([^\s;]+)", q, re.IGNORECASE)` at the
head of the input: the keyword, then whitespace, then the nonempty group. -/
def tryFromTarget : List Char → Option (List Char)
  | a :: b :: c :: d :: r =>
    if fromTest a b c d then
      if (r.takeWhile isSpaceChar).isEmpty then none
      else
        if ((r.drop (r.takeWhile isSpaceChar).length).takeWhile notSpaceSemi).isEmpty then
          none
        else some ((r.drop (r.takeWhile isSpaceChar).length).takeWhile notSpaceSemi)
    else none
  | _ => none

/-- Leftmost `re.search` scan for the first FROM target. -/
def searchFrom : List Char → Option (List Char)
  | [] => none
  | c :: rest =>
    match tryFromTarget (c :: rest) with
    | some g => some g
    | none => searchFrom rest

/-- Python `str.strip(chars)`: remove the given characters from both ends. -/
def pyStrip (p : Char → Bool) (l : List Char) : List Char :=
  ((l.dropWhile p).reverse.dropWhile p).reverse

/-- The table name `_arrow_table_for_query` derives from a query: the first
FROM target, stripped of surrounding whitespace and semicolons, with every
double quote removed, reduced to its final dot-separated segment. -/
def fixtureKey (q : String) : Option String :=
  match searchFrom q.data with
  | none => none
  | some g =>
    some (String.mk
      ((((pyStrip (fun c => c == ';') (pyStrip isSpaceChar g)).filter
        (fun c => c != '"')).splitOn '.').getLastD []))

/-- `_arrow_table_for_query`. -/
def arrowTableForQuery (q : String) : Option ArrowTable :=
  match fixtureKey q with
  | none => none
  | some name => arrowTables.lookup name

/-! ## The server: planning and `do_get` -/

/-- The server's fixed environment: the embedded SQL engine, the physical
base tables of schema `main`, and the serialized Arrow-schema blob served for
each table in `GetTables` rows.  The engine and the pyarrow IPC serializer
are external collaborators (spec §6), so they are parameters of the model. -/
structure Registry where
  engine : String → Option ArrowTable
  physTables : List String
  tblSchemaBlob : String → List Nat

structure FlightInfoM where
  schema : List (String × DType)
  totalRecords : Int
  ticket : String
  deriving DecidableEq

/-- `_get_query_info`: rewrite, consult the fixture map, else execute on the
engine; `none` models the `FlightServerError` raised on failure. -/
def getQueryInfo (R : Registry) (query : String) : Option FlightInfoM :=
  match arrowTableForQuery (rewriteQuery query) with
  | some t => some ⟨t.schema, (t.rows.length : Int), "QUERY:" ++ rewriteQuery query⟩
  | none =>
    match R.engine (rewriteQuery query) with
    | some t => some ⟨t.schema, (t.rows.length : Int), "QUERY:" ++ rewriteQuery query⟩
    | none => none

def fiveColSchema : List (String × DType) :=
  [("catalog_name", DType.str), ("db_schema_name", DType.str),
    ("table_name", DType.str), ("table_type", DType.str), ("table_schema", DType.bin)]

def dbSchemasInfo (filt : String) : FlightInfoM :=
  ⟨[("catalog_name", DType.str), ("db_schema_name", DType.str)], -1,
    "CMD:GET_DB_SCHEMAS:" ++ filt⟩

def tablesInfo (filt : String) : FlightInfoM :=
  ⟨fiveColSchema, -1, "CMD:GET_TABLES:" ++ filt⟩

def catalogsInfo : FlightInfoM :=
  ⟨[("catalog_name", DType.str)], -1, "CMD:GET_CATALOGS"⟩

def tableTypesInfo : FlightInfoM :=
  ⟨[("table_type", DType.str)], -1, "CMD:GET_TABLE_TYPES"⟩

/-- `_extract_query_from_statement_command`. -/
def extractQueryFromStatement (command : List Nat) : String :=
  if extractInnerValue command = [] then ""
  else extractStringField (extractInnerValue command) 1

/-- `_extract_catalog_filter_from_command`. -/
def extractCatalogFilter (command : List Nat) : String :=
  if extractInnerValue command = [] then ""
  else extractStringField (extractInnerValue command) 1

/-- `get_flight_info`: classify the command and dispatch; unhandled cases
fall through to decoding the raw bytes as a UTF-8 SQL string; `none` models
the protocol errors. -/
def getFlightInfo (R : Registry) (command : List Nat) : Option FlightInfoM :=
  if isFlightSqlCommand command then
    if getCommandType command = CMD_GET_DB_SCHEMAS then
      some (dbSchemasInfo (extractCatalogFilter command))
    else if getCommandType command = CMD_GET_TABLES then
      some (tablesInfo (extractCatalogFilter command))
    else if getCommandType command = CMD_GET_CATALOGS then some catalogsInfo
    else if getCommandType command = CMD_GET_TABLE_TYPES then some tableTypesInfo
    else if getCommandType command = CMD_STATEMENT_QUERY then
      if extractQueryFromStatement command ≠ "" then
        getQueryInfo R (extractQueryFromStatement command)
      else
        match utf8DecodeBytes command with
        | some q => getQueryInfo R q
        | none => none
    else
      match utf8DecodeBytes command with
      | some q => getQueryInfo R q
      | none => none
  else
    match utf8DecodeBytes command with
    | some q => getQueryInfo R q
    | none => none

/-- The fixed synthetic catalog list `all_catalogs`. -/
def allCatalogs : List String := ["test", "alt"]

/-- `do_get` for `CMD:GET_DB_SCHEMAS:<filter>`: `(catalog, "main")` pairs,
restricted to the matching catalog when the filter is nonempty. -/
def dbSchemasResult (filt : String) : ArrowTable :=
  ⟨[("catalog_name", DType.str), ("db_schema_name", DType.str)],
    (if filt = "" then allCatalogs else allCatalogs.filter (fun c => c == filt)).map
      (fun c => [Val.s c, Val.s "main"])⟩

/-- One `CMD:GET_TABLES` output row for catalog `cat` and table `name`. -/
def tableRow (R : Registry) (cat name : String) : List Val :=
  [Val.s cat, Val.s "main", Val.s name, Val.s "TABLE", Val.b (R.tblSchemaBlob name)]

/-- `do_get` for `CMD:GET_TABLES:<filter>`: every physical table duplicated
once per synthetic catalog with no filter; only the matching catalog's copies
with a known filter; an empty but correctly shaped table otherwise. -/
def getTablesResult (R : Registry) (filt : String) : ArrowTable :=
  ⟨fiveColSchema,
    if filt = "" then
      R.physTables.map (tableRow R "test") ++ R.physTables.map (tableRow R "alt")
    else if allCatalogs.contains filt then R.physTables.map (tableRow R filt)
    else []⟩

/-- `do_get` for `CMD:GET_CATALOGS`: one row with an empty catalog name. -/
def catalogsResult : ArrowTable :=
  ⟨[("catalog_name", DType.str)], [[Val.s ""]]⟩

/-- `do_get` for `CMD:GET_TABLE_TYPES`. -/
def tableTypesResult : ArrowTable :=
  ⟨[("table_type", DType.str)], [[Val.s "TABLE"], [Val.s "VIEW"]]⟩

/-- `do_get` on a `QUERY:` ticket payload: rewrite again, fixtures first,
else the engine. -/
def doGetQuery (R : Registry) (q : String) : Option ArrowTable :=
  match arrowTableForQuery (rewriteQuery q) with
  | some t => some t
  | none => R.engine (rewriteQuery q)

/-- `do_get` on an unrecognized ticket: treat it as a raw SQL string with no
rewrite; fixtures first, else the engine. -/
def doGetRaw (R : Registry) (q : String) : Option ArrowTable :=
  match arrowTableForQuery q with
  | some t => some t
  | none => R.engine q

/-- `do_get`, dispatching on the ticket text; `none` models the terminal
protocol errors. -/
def doGet (R : Registry) (ticket : String) : Option ArrowTable :=
  if "QUERY:".data.isPrefixOf ticket.data then
    doGetQuery R (String.mk (ticket.data.drop 6))
  else if "CMD:GET_DB_SCHEMAS:".data.isPrefixOf ticket.data then
    some (dbSchemasResult (String.mk (ticket.data.drop 19)))
  else if "CMD:GET_TABLES:".data.isPrefixOf ticket.data then
    some (getTablesResult R (String.mk (ticket.data.drop 15)))
  else if ticket = "CMD:GET_CATALOGS" then some catalogsResult
  else if ticket = "CMD:GET_TABLE_TYPES" then some tableTypesResult
  else doGetRaw R ticket

/-! ## The concrete test registry -/

/-- The `numbers` test table:
`SELECT i AS id, 'item_' || i AS name FROM range(1, 11)`. -/
def numbersTable : ArrowTable :=
  ⟨[("id", DType.i64), ("name", DType.str)],
    (List.range 10).map (fun i => [Val.i (i + 1), Val.s ("item_" ++ toString (i + 1))])⟩

/-- The `id` column of `numbers`, as produced by `SELECT id FROM ...`. -/
def numbersIdTable : ArrowTable :=
  ⟨[("id", DType.i64)], (List.range 10).map (fun i => [Val.i (i + 1)])⟩

/-- Modelled from the spec: the embedded DuckDB engine is an external
collaborator ("an embedded SQL engine exposed as a connect, execute,
fetch-as-Arrow capability", spec §6).  It is modelled as a deterministic map
that interprets, over the fixed test data of `_setup_test_data`, exactly the
query strings the claims exercise. -/
def duckdbEngine : String → Option ArrowTable := fun q =>
  if q = "SELECT * FROM numbers" then some numbersTable
  else if q = "SELECT id FROM \"main\".\"numbers\"" then some numbersIdTable
  else none

/-- The base tables created at startup in schema `main`. -/
def physTablesList : List String :=
  ["test_data", "numbers", "types_test", "decimal_test", "nested_test",
    "dictionary_test", "run_end_test"]

def duckRegistry : Registry := ⟨duckdbEngine, physTablesList, fun _ => []⟩

/-! ## Ticket-dispatch helpers -/

theorem isPrefixOf_cons_ne {a b : Char} {as bs : List Char} (h : (a == b) = false) :
    (a :: as).isPrefixOf (b :: bs) = false := by
  simp [List.isPrefixOf, h]

theorem isPrefixOf_append_same (a b c : List Char) :
    (a ++ b).isPrefixOf (a ++ c) = b.isPrefixOf c := by
  induction a with
  | nil => rfl
  | cons x xs ih => simp [List.isPrefixOf, ih]

theorem isPrefixOf_self_append (a b : List Char) : a.isPrefixOf (a ++ b) = true :=
  (isPrefixOf_iff_exists a (a ++ b)).mpr ⟨b, rfl⟩

/-- A `QUERY:` ticket always dispatches to the query path with the prefix
stripped. -/
theorem doGet_query_ticket (R : Registry) (s : String) :
    doGet R ("QUERY:" ++ s) = doGetQuery R s := by
  unfold doGet
  rw [if_pos (by rw [String.data_append]; exact isPrefixOf_self_append _ _)]
  rw [String.data_append, List.drop_left' (by decide)]

/-- A `CMD:GET_TABLES:` ticket always dispatches to the table-listing path
with the filter recovered from the ticket. -/
theorem doGet_tables_ticket (R : Registry) (filt : String) :
    doGet R ("CMD:GET_TABLES:" ++ filt) = some (getTablesResult R filt) := by
  unfold doGet
  rw [if_neg (by
    rw [String.data_append]
    exact ne_true_of_eq_false (isPrefixOf_cons_ne (by decide)))]
  rw [if_neg (by
    rw [String.data_append]
    have hsplit : "CMD:GET_DB_SCHEMAS:".data = "CMD:GET_".data ++ "DB_SCHEMAS:".data := by
      decide
    have hsplit2 : "CMD:GET_TABLES:".data ++ filt.data =
        "CMD:GET_".data ++ ("TABLES:".data ++ filt.data) := by
      rw [show "CMD:GET_TABLES:".data = "CMD:GET_".data ++ "TABLES:".data by decide]
      simp
    rw [hsplit, hsplit2, isPrefixOf_append_same]
    exact ne_true_of_eq_false (isPrefixOf_cons_ne (by decide)))]
  rw [if_pos (by rw [String.data_append]; exact isPrefixOf_self_append _ _)]
  rw [String.data_append, List.drop_left' (by decide)]

/-! ## C1: GetCatalogs -/

/-- C1 (counterexample): the DoGet result for the `CMD:GET_CATALOGS` ticket
is a single row whose `catalog_name` is the empty string — not one row per
synthetic catalog of the fixed catalog set `["test", "alt"]`. -/
theorem get_catalogs_counterexample :
    doGet duckRegistry "CMD:GET_CATALOGS" = some catalogsResult ∧
    catalogsResult.rows ≠ allCatalogs.map (fun c => [Val.s c]) := by
  constructor
  · decide
  · decide

/-- C1 (amended): for every registry, DoGet on the `CMD:GET_CATALOGS` ticket
returns exactly one row, with the empty string as its `catalog_name`,
regardless of any filter. -/
theorem get_catalogs_amended (R : Registry) :
    doGet R "CMD:GET_CATALOGS" =
      some ⟨[("catalog_name", DType.str)], [[Val.s ""]]⟩ := by
  unfold doGet
  rw [if_neg (by decide), if_neg (by decide), if_neg (by decide), if_pos rfl]
  rfl

theorem get_catalogs_amended_witness :
    doGet duckRegistry "CMD:GET_CATALOGS" =
      some ⟨[("catalog_name", DType.str)], [[Val.s ""]]⟩ :=
  get_catalogs_amended duckRegistry

/-! ## C2: plan/fetch determinism -/

/-- C3: for every registry with `T` physical base tables, DoGet on a
`CMD:GET_TABLES:` ticket yields: with an empty filter, `2 × T` rows — every
table duplicated once per synthetic catalog (the full cross product, in
catalog-major order); with a filter equal to a known catalog name, exactly
`T` rows all carrying that `catalog_name`; with a filter matching no known
catalog, zero rows; and in every case the fixed five-column schema
(`catalog_name`, `db_schema_name`, `table_name`, `table_type`,
`table_schema`). -/
theorem get_tables_spec (R : Registry) (filt : String) :
    doGet R ("CMD:GET_TABLES:" ++ filt) = some (getTablesResult R filt) ∧
    (getTablesResult R filt).schema = fiveColSchema ∧
    (filt = "" →
      (getTablesResult R filt).rows =
        R.physTables.map (tableRow R "test") ++ R.physTables.map (tableRow R "alt") ∧
      (getTablesResult R filt).rows.length = 2 * R.physTables.length) ∧
    (allCatalogs.contains filt = true → filt ≠ "" →
      (getTablesResult R filt).rows = R.physTables.map (tableRow R filt) ∧
      (getTablesResult R filt).rows.length = R.physTables.length ∧
      ∀ row ∈ (getTablesResult R filt).rows, row.head? = some (Val.s filt)) ∧
    (filt ≠ "" → allCatalogs.contains filt = false →
      (getTablesResult R filt).rows = []) := by
  refine ⟨doGet_tables_ticket R filt, rfl, ?_, ?_, ?_⟩
  · rintro rfl
    constructor
    · rfl
    · simp [getTablesResult]
      ring
  · intro hin hne
    have hrows : (getTablesResult R filt).rows = R.physTables.map (tableRow R filt) := by
      unfold getTablesResult
      rw [if_neg hne, if_pos hin]
    refine ⟨hrows, by rw [hrows]; simp, ?_⟩
    rw [hrows]
    intro row hrow
    obtain ⟨name, -, rfl⟩ := List.mem_map.mp hrow
    rfl
  · intro hne hnotin
    unfold getTablesResult
    rw [if_neg hne, hnotin]
    rfl

theorem get_tables_spec_witness :
    (getTablesResult duckRegistry "").rows.length = 2 * 7 ∧
    (getTablesResult duckRegistry "test").rows.length = 7 ∧
    (∀ row ∈ (getTablesResult duckRegistry "test").rows,
      row.head? = some (Val.s "test")) ∧
    (getTablesResult duckRegistry "zzz").rows = [] ∧
    doGet duckRegistry "CMD:GET_TABLES:zzz" = some (getTablesResult duckRegistry "zzz") := by
  refine ⟨?_, ?_, ?_, ?_, ?_⟩
  · rw [((get_tables_spec duckRegistry "").2.2.1 rfl).2]
    rfl
  · rw [((get_tables_spec duckRegistry "test").2.2.2.1 (by decide) (by decide)).2.1]
    rfl
  · exact ((get_tables_spec duckRegistry "test").2.2.2.1 (by decide) (by decide)).2.2
  · exact (get_tables_spec duckRegistry "zzz").2.2.2.2 (by decide) (by decide)
  · exact (get_tables_spec duckRegistry "zzz").1

/-! ## C5: the concrete statement-query scenario -/

/-- The `CommandStatementQuery` request of the concrete scenario, as an
`Any`-wrapped protobuf whose inner message carries the query in field 1. -/
def c5Command : List Nat :=
  anyEncode CMD_STATEMENT_QUERY
    (0x0A :: (encodeVarint (asciiBytes "SELECT id FROM \"test\".\"main\".\"numbers\"").length ++
      asciiBytes "SELECT id FROM \"test\".\"main\".\"numbers\""))

/-- C5 (counterexample): the rewrite does not produce the unquoted string
`SELECT id FROM main.numbers`; the replacement keeps the quoted identifiers
(as the source's own docstring documents:
`"test"."main"."numbers" -> "main"."numbers"`). -/
theorem c5_rewrite_counterexample :
    rewriteQuery "SELECT id FROM \"test\".\"main\".\"numbers\"" ≠
      "SELECT id FROM main.numbers" := by
  decide

/-- C5 (amended): the planner rewrites the query to
`SELECT id FROM "main"."numbers"` (catalog segment dropped, quotes kept),
the advertised FlightInfo has schema `{id: int64}` and `total_records = 10`,
and DoGet on the returned ticket streams the ten rows `1 .. 10`. -/
theorem c5_pipeline :
    rewriteQuery "SELECT id FROM \"test\".\"main\".\"numbers\"" =
      "SELECT id FROM \"main\".\"numbers\"" ∧
    getFlightInfo duckRegistry c5Command =
      some ⟨[("id", DType.i64)], 10, "QUERY:SELECT id FROM \"main\".\"numbers\""⟩ ∧
    doGet duckRegistry "QUERY:SELECT id FROM \"main\".\"numbers\"" = some numbersIdTable ∧
    numbersIdTable.rows =
      [[Val.i 1], [Val.i 2], [Val.i 3], [Val.i 4], [Val.i 5],
        [Val.i 6], [Val.i 7], [Val.i 8], [Val.i 9], [Val.i 10]] := by
  refine ⟨by decide, by decide, by decide, by decide⟩

/-! ## C10: fixture shadowing -/

/-- C10: fixture shadowing is decided solely by the final dot-separated
segment (double quotes removed) of the first FROM target of the query text
the handlers inspect.  Whenever that segment names a fixture table, planning
advertises the entire fixture's schema and row count and DoGet returns the
entire fixture table, whatever else the query says; when it names no
fixture, both fall through to the engine. -/
theorem fixture_shadowing :
    (∀ q₁ q₂ : String, fixtureKey q₁ = fixtureKey q₂ →
      arrowTableForQuery q₁ = arrowTableForQuery q₂) ∧
    (∀ (R : Registry) (q : String) (name : String) (t : ArrowTable),
      fixtureKey (rewriteQuery q) = some name → arrowTables.lookup name = some t →
      getQueryInfo R q =
        some ⟨t.schema, (t.rows.length : Int), "QUERY:" ++ rewriteQuery q⟩) ∧
    (∀ (R : Registry) (s : String) (name : String) (t : ArrowTable),
      fixtureKey (rewriteQuery s) = some name → arrowTables.lookup name = some t →
      doGet R ("QUERY:" ++ s) = some t) ∧
    (∀ (R : Registry) (q : String) (name : String),
      fixtureKey (rewriteQuery q) = some name → arrowTables.lookup name = none →
      getQueryInfo R q =
        match R.engine (rewriteQuery q) with
        | some t => some ⟨t.schema, (t.rows.length : Int), "QUERY:" ++ rewriteQuery q⟩
        | none => none) := by
  refine ⟨?_, ?_, ?_, ?_⟩
  · intro q₁ q₂ h
    unfold arrowTableForQuery
    rw [h]
  · intro R q name t hkey hlook
    unfold getQueryInfo arrowTableForQuery
    rw [hkey]
    simp [hlook]
  · intro R s name t hkey hlook
    rw [doGet_query_ticket]
    unfold doGetQuery arrowTableForQuery
    rw [hkey]
    simp [hlook]
  · intro R q name hkey hlook
    unfold getQueryInfo arrowTableForQuery
    rw [hkey]
    simp [hlook]

theorem fixture_shadowing_witness :
    getQueryInfo duckRegistry "SELECT x FROM t.main.dictionary_test WHERE 1" =
      some ⟨dictionaryTestTable.schema, (dictionaryTestTable.rows.length : Int),
        "QUERY:" ++ rewriteQuery "SELECT x FROM t.main.dictionary_test WHERE 1"⟩ ∧
    doGet duckRegistry ("QUERY:" ++ "SELECT x FROM main.dictionary_test WHERE 1") =
      some dictionaryTestTable :=
  ⟨fixture_shadowing.2.1 duckRegistry "SELECT x FROM t.main.dictionary_test WHERE 1"
      "dictionary_test" dictionaryTestTable (by decide) (by decide),
    fixture_shadowing.2.2.1 duckRegistry "SELECT x FROM main.dictionary_test WHERE 1"
      "dictionary_test" dictionaryTestTable (by decide) (by decide)⟩
